import Mathlib

/-!
Formal model of the vault-sync repository: a multi-device file
synchronization system with a Go server (storage layer, tombstone
registry, vector clocks, sync coordinator, connection hub, auth gate)
and a TypeScript client plugin (outbound queue, inbound application,
full-sync reconciliation).

The definitions below are shallow embeddings of the source functions:
  - src/server/storage.go   (Storage, tombstones, AuthManager)
  - src/server/sync.go      (SyncManager, vector clocks) - the current
    revision, i.e. the first of the two revisions present in the file
  - the hub source           (Hub.Run, Hub.Broadcast, Hub.SendTo)
  - src/plugin/sync.ts      (client SyncManager.handleFullSync and the
    outbound send helpers it invokes)

Machine integers (Go int64, JS numbers used as integers) are modeled
as Int; byte slices as List Nat (each element a byte value); Go maps
and JS Maps as association lists with first-match lookup and
replace-first insertion, which matches unique-key map semantics.
Wall-clock time is a field of the storage state. Disk and transport
I/O cannot fail in the model; every failure branch that the source
checks for (path validation, size limits, missing files, undecodable
base64) is represented.
-/

/-! ## Association lists (model of Go map / JS Map) -/

def lookupA {α : Type} : List (String × α) → String → Option α
  | [], _ => none
  | e :: rest, k => if e.1 = k then some e.2 else lookupA rest k

def setA {α : Type} : List (String × α) → String → α → List (String × α)
  | [], k, v => [(k, v)]
  | e :: rest, k, v => if e.1 = k then (k, v) :: rest else e :: setA rest k v

def eraseA {α : Type} : List (String × α) → String → List (String × α)
  | [], _ => []
  | e :: rest, k => if e.1 = k then eraseA rest k else e :: eraseA rest k

theorem lookupA_setA_self {α : Type} (m : List (String × α)) (k : String) (v : α) :
    lookupA (setA m k v) k = some v := by
  induction m with
  | nil => simp [setA, lookupA]
  | cons e rest ih =>
    by_cases h : e.1 = k
    · simp [setA, h, lookupA]
    · simp [setA, h, lookupA, ih]

theorem lookupA_setA_ne {α : Type} (m : List (String × α)) (k k' : String) (v : α)
    (h : k' ≠ k) : lookupA (setA m k v) k' = lookupA m k' := by
  have hne : ¬ k = k' := fun hk => h hk.symm
  induction m with
  | nil => simp [setA, lookupA, hne]
  | cons e rest ih =>
    by_cases he : e.1 = k
    · simp [setA, he, lookupA, hne]
    · by_cases he' : e.1 = k'
      · simp [setA, he, lookupA, he', h]
      · simp [setA, he, lookupA, he', ih]

theorem lookupA_eraseA_self {α : Type} (m : List (String × α)) (k : String) :
    lookupA (eraseA m k) k = none := by
  induction m with
  | nil => simp [eraseA, lookupA]
  | cons e rest ih =>
    by_cases h : e.1 = k
    · simp [eraseA, h, ih]
    · simp [eraseA, h, lookupA, ih]

theorem lookupA_eraseA_ne {α : Type} (m : List (String × α)) (k k' : String)
    (h : k' ≠ k) : lookupA (eraseA m k) k' = lookupA m k' := by
  have hne : ¬ k = k' := fun hk => h hk.symm
  induction m with
  | nil => simp [eraseA, lookupA]
  | cons e rest ih =>
    by_cases he : e.1 = k
    · simp [eraseA, he, lookupA, hne, ih]
    · by_cases he' : e.1 = k'
      · simp [eraseA, he, lookupA, he', h]
      · simp [eraseA, he, lookupA, he', ih]

/-! ## SHA-256 (crypto/sha256 as used by Storage.computeHash; 32-bit
words are Nat reduced mod 2 to the 32) -/

def w32 (n : Nat) : Nat := n % 4294967296

def rotr32 (x n : Nat) : Nat := w32 ((x >>> n) ||| (x <<< (32 - n)))

def sha256K : List Nat :=
  [1116352408, 1899447441, 3049323471, 3921009573, 961987163,
   1508970993, 2453635748, 2870763221, 3624381080, 310598401,
   607225278, 1426881987, 1925078388, 2162078206, 2614888103,
   3248222580, 3835390401, 4022224774, 264347078, 604807628,
   770255983, 1249150122, 1555081692, 1996064986, 2554220882,
   2821834349, 2952996808, 3210313671, 3336571891, 3584528711,
   113926993, 338241895, 666307205, 773529912, 1294757372,
   1396182291, 1695183700, 1986661051, 2177026350, 2456956037,
   2730485921, 2820302411, 3259730800, 3345764771, 3516065817,
   3600352804, 4094571909, 275423344, 430227734, 506948616,
   659060556, 883997877, 958139571, 1322822218, 1537002063,
   1747873779, 1955562222, 2024104815, 2227730452, 2361852424,
   2428436474, 2756734187, 3204031479, 3329325298]

structure Sha256State where
  a : Nat
  b : Nat
  c : Nat
  d : Nat
  e : Nat
  f : Nat
  g : Nat
  h : Nat
  deriving DecidableEq

def sha256Init : Sha256State :=
  ⟨1779033703, 3144134277, 1013904242, 2773480762,
   1359893119, 2600822924, 528734635, 1541459225⟩

def sha256Round (st : Sha256State) (k w : Nat) : Sha256State :=
  let s1 := (rotr32 st.e 6) ^^^ (rotr32 st.e 11) ^^^ (rotr32 st.e 25)
  let ch := (st.e &&& st.f) ^^^ ((st.e ^^^ 4294967295) &&& st.g)
  let t1 := w32 (st.h + s1 + ch + k + w)
  let s0 := (rotr32 st.a 2) ^^^ (rotr32 st.a 13) ^^^ (rotr32 st.a 22)
  let maj := (st.a &&& st.b) ^^^ (st.a &&& st.c) ^^^ (st.b &&& st.c)
  let t2 := w32 (s0 + maj)
  ⟨w32 (t1 + t2), st.a, st.b, st.c, w32 (st.d + t1), st.e, st.f, st.g⟩

def toWords : List Nat → List Nat
  | a :: b :: c :: d :: rest => (((a * 256 + b) * 256 + c) * 256 + d) :: toWords rest
  | _ => []

def scheduleStep (ws : List Nat) : List Nat :=
  let w2 := ws.getD 1 0
  let w7 := ws.getD 6 0
  let w15 := ws.getD 14 0
  let w16 := ws.getD 15 0
  let s0 := (rotr32 w15 7) ^^^ (rotr32 w15 18) ^^^ (w15 >>> 3)
  let s1 := (rotr32 w2 17) ^^^ (rotr32 w2 19) ^^^ (w2 >>> 10)
  w32 (w16 + s0 + w7 + s1) :: ws

def extendSchedule : Nat → List Nat → List Nat
  | 0, ws => ws
  | n + 1, ws => extendSchedule n (scheduleStep ws)

def sha256Schedule (block : List Nat) : List Nat :=
  (extendSchedule 48 block.reverse).reverse

def sha256Compress (hs : Sha256State) (block : List Nat) : Sha256State :=
  let ws := sha256Schedule block
  let final := (sha256K.zip ws).foldl (fun st kw => sha256Round st kw.1 kw.2) hs
  ⟨w32 (hs.a + final.a), w32 (hs.b + final.b), w32 (hs.c + final.c), w32 (hs.d + final.d),
   w32 (hs.e + final.e), w32 (hs.f + final.f), w32 (hs.g + final.g), w32 (hs.h + final.h)⟩

def toBlocks : List Nat → List (List Nat)
  | w0 :: w1 :: w2 :: w3 :: w4 :: w5 :: w6 :: w7 :: w8 :: w9 :: w10 :: w11 :: w12 :: w13 :: w14 :: w15 :: rest =>
    [w0, w1, w2, w3, w4, w5, w6, w7, w8, w9, w10, w11, w12, w13, w14, w15] :: toBlocks rest
  | _ => []

def bytesBE : Nat → Nat → List Nat
  | 0, _ => []
  | k + 1, n => bytesBE k (n / 256) ++ [n % 256]

def sha256Pad (msg : List Nat) : List Nat :=
  let zeros := (119 - (msg.length % 64)) % 64
  msg ++ [0x80] ++ List.replicate zeros 0 ++ bytesBE 8 (msg.length * 8)

def sha256 (msg : List Nat) : List Nat :=
  let blocks := toBlocks (toWords (sha256Pad msg))
  let final := blocks.foldl sha256Compress sha256Init
  (bytesBE 4 final.a) ++ (bytesBE 4 final.b) ++ (bytesBE 4 final.c) ++ (bytesBE 4 final.d) ++
  (bytesBE 4 final.e) ++ (bytesBE 4 final.f) ++ (bytesBE 4 final.g) ++ (bytesBE 4 final.h)

def hexDigit (n : Nat) : Char :=
  if n = 0 then '0' else if n = 1 then '1' else if n = 2 then '2' else if n = 3 then '3'
  else if n = 4 then '4' else if n = 5 then '5' else if n = 6 then '6' else if n = 7 then '7'
  else if n = 8 then '8' else if n = 9 then '9' else if n = 10 then 'a' else if n = 11 then 'b'
  else if n = 12 then 'c' else if n = 13 then 'd' else if n = 14 then 'e' else 'f'

def hexEncode (bytes : List Nat) : String :=
  String.mk (bytes.foldr (fun b acc => hexDigit (b / 16) :: hexDigit (b % 16) :: acc) [])

/-- Model of Storage.computeHash: lowercase hex SHA-256 of the bytes. -/
def sha256hex (msg : List Nat) : String := hexEncode (sha256 msg)

/-! ## Base64 (encoding/base64 StdEncoding: standard alphabet, padded;
DecodeString ignores CR and LF) -/

def b64Alphabet : List Char :=
  "ABCDEFGHIJKLMNOPQRSTUVWXYZabcdefghijklmnopqrstuvwxyz0123456789+/".data

def b64IndexAux : List Char → Nat → Char → Option Nat
  | [], _, _ => none
  | a :: rest, i, c => if a = c then some i else b64IndexAux rest (i + 1) c

def b64Index (c : Char) : Option Nat := b64IndexAux b64Alphabet 0 c

def b64DecodeQuads : List Char → Option (List Nat)
  | [] => some []
  | c1 :: c2 :: c3 :: c4 :: rest =>
    match b64Index c1, b64Index c2 with
    | some v1, some v2 =>
      if c3 = '=' then
        if c4 = '=' ∧ rest = [] then some [v1 * 4 + v2 / 16] else none
      else
        match b64Index c3 with
        | some v3 =>
          if c4 = '=' then
            if rest = [] then some [v1 * 4 + v2 / 16, (v2 % 16) * 16 + v3 / 4] else none
          else
            match b64Index c4 with
            | some v4 =>
              match b64DecodeQuads rest with
              | some bs =>
                some ([v1 * 4 + v2 / 16, (v2 % 16) * 16 + v3 / 4, (v3 % 4) * 64 + v4] ++ bs)
              | none => none
            | none => none
        | none => none
    | _, _ => none
  | _ => none

def base64Decode (s : String) : Option (List Nat) :=
  b64DecodeQuads (s.data.filter (fun c => decide (c ≠ '\r') && decide (c ≠ '\n')))

def b64Char (n : Nat) : Char := b64Alphabet.getD n 'A'

def b64EncodeChunks : List Nat → List Char
  | [] => []
  | [b1] => [b64Char (b1 / 4), b64Char ((b1 % 4) * 16), '=', '=']
  | [b1, b2] => [b64Char (b1 / 4), b64Char ((b1 % 4) * 16 + b2 / 16), b64Char ((b2 % 16) * 4), '=']
  | b1 :: b2 :: b3 :: rest =>
    b64Char (b1 / 4) :: b64Char ((b1 % 4) * 16 + b2 / 16) ::
    b64Char ((b2 % 16) * 4 + b3 / 64) :: b64Char (b3 % 64) :: b64EncodeChunks rest

def base64Encode (bs : List Nat) : String := String.mk (b64EncodeChunks bs)

example : base64Decode "aGVsbG8=" = some [104, 101, 108, 108, 111] := by decide
example : base64Encode [104, 101, 108, 108, 111] = "aGVsbG8=" := by decide
example : base64Decode "" = some [] := by decide

/-! ## Path handling (path/filepath lexical functions on the unix
separator, as used by Storage.validatePath) -/

def strPrefixOf : List Char → List Char → Bool
  | [], _ => true
  | _ :: _, [] => false
  | p :: ps, c :: cs => decide (p = c) && strPrefixOf ps cs

def listContainsSub : List Char → List Char → Bool
  | [], sub => sub.isEmpty
  | c :: rest, sub => strPrefixOf sub (c :: rest) || listContainsSub rest sub

def splitSlash : List Char → List (List Char)
  | [] => [[]]
  | '/' :: rest => [] :: splitSlash rest
  | c :: rest =>
    match splitSlash rest with
    | g :: gs => (c :: g) :: gs
    | [] => [[c]]

def joinSlash : List (List Char) → List Char
  | [] => []
  | [c] => c
  | c :: rest => c ++ '/' :: joinSlash rest

/-- The element processing loop of Go filepath.Clean: dot-dot pops a
previous element when possible, is kept at the start of a relative
path, and is dropped at the root of an absolute path. -/
def cleanComps (rooted : Bool) (comps : List (List Char)) : List (List Char) :=
  (comps.foldl (fun acc c =>
    if c = ['.', '.'] then
      match acc with
      | [] => if rooted then [] else [c]
      | top :: rest => if top = ['.', '.'] then c :: acc else rest
    else c :: acc) []).reverse

/-- Model of Go filepath.Clean (unix separator). -/
def pathClean (p : String) : String :=
  if p = "" then "." else
  let cs := p.data
  let rooted := strPrefixOf ['/'] cs
  let comps := (splitSlash cs).filter (fun c => decide (c ≠ []) && decide (c ≠ ['.']))
  let body := joinSlash (cleanComps rooted comps)
  if rooted then String.mk ('/' :: body)
  else if body = [] then "." else String.mk body

/-- Model of Go filepath.Join on two elements (empty elements are
skipped, the rest is joined with the separator and cleaned). -/
def pathJoin (a b : String) : String :=
  if a = "" then (if b = "" then "" else pathClean b)
  else if b = "" then pathClean a
  else pathClean (a ++ "/" ++ b)

example : pathClean "a/../b" = "b" := by decide
example : pathClean "../x" = "../x" := by decide
example : pathClean "/etc/passwd" = "/etc/passwd" := by decide
example : pathClean "." = "." := by decide
example : pathClean "a//b/./c/" = "a/b/c" := by decide
example : pathJoin "/data/vault" "." = "/data/vault" := by decide
example : pathJoin "/data/vault" "/etc/passwd" = "/data/vault/etc/passwd" := by decide

/-! ## Storage (src/server/storage.go) -/

inductive StorageErr
  | invalidPath
  | pathTraversal
  | fileTooLarge
  | ioError
  deriving DecidableEq

/-- Go FileInfo record. The source declares an extra optional
VectorClock field that no code path ever populates; it is omitted. -/
structure FileInfo where
  path : String
  hash : String
  size : Int
  mtime : Int
  deriving DecidableEq

structure Tombstone where
  path : String
  deletedAt : Int
  deletedBy : String
  vectorClock : List (String × Int)
  ttl : Int
  deriving DecidableEq

structure DiskFile where
  content : List Nat
  mtime : Int
  deriving DecidableEq

/-- Storage state: the on-disk tree is a map from absolute path to
file bytes and mtime; the hash cache is keyed by the relative path
exactly as in the source; now is the wall clock in unix seconds. -/
structure StorageState where
  basePath : String
  maxFileSizeMB : Int
  disk : List (String × DiskFile)
  hashes : List (String × String)
  tombstones : List (String × Tombstone)
  now : Int
  deriving DecidableEq

def Storage.validatePath (s : StorageState) (path : String) : Except StorageErr String :=
  if path = "" then .error .invalidPath
  else
    let cleanPath := pathClean path
    if listContainsSub cleanPath.data ['.', '.'] then .error .pathTraversal
    else
      let fullPath := pathJoin s.basePath cleanPath
      if strPrefixOf s.basePath.data fullPath.data then .ok fullPath
      else .error .pathTraversal

def Storage.WriteFile (s : StorageState) (path : String) (content : List Nat)
    (mtime : Int) : Except StorageErr StorageState :=
  match Storage.validatePath s path with
  | .error e => .error e
  | .ok fullPath =>
    if (content.length : Int) > s.maxFileSizeMB * 1024 * 1024 then .error .fileTooLarge
    else
      let fileMTime := if mtime > 0 then mtime else s.now * 1000
      .ok { s with disk := setA s.disk fullPath (⟨content, fileMTime⟩ : DiskFile),
                   hashes := setA s.hashes path (sha256hex content) }

def Storage.ReadFile (s : StorageState) (path : String) : Except StorageErr (List Nat) :=
  match Storage.validatePath s path with
  | .error e => .error e
  | .ok fullPath =>
    match lookupA s.disk fullPath with
    | some df => .ok df.content
    | none => .error .ioError

/-- Storage.DeleteFile: removing a missing file succeeds; the hash
cache entry is evicted; empty parent directories are cleaned up on
disk, which has no observable counterpart in the map model. -/
def Storage.DeleteFile (s : StorageState) (path : String) : Except StorageErr StorageState :=
  match Storage.validatePath s path with
  | .error e => .error e
  | .ok fullPath =>
    .ok { s with disk := eraseA s.disk fullPath, hashes := eraseA s.hashes path }

/-- Storage.GetFileHash: cache lookup only; a missing key reads as the
empty string, as for a Go map. -/
def Storage.GetFileHash (s : StorageState) (path : String) : String :=
  (lookupA s.hashes path).getD ""

def Storage.GetFileInfo (s : StorageState) (path : String) : Except StorageErr FileInfo :=
  match Storage.validatePath s path with
  | .error e => .error e
  | .ok fullPath =>
    match lookupA s.disk fullPath with
    | some df => .ok (⟨path, (lookupA s.hashes path).getD "", (df.content.length : Int), df.mtime⟩ : FileInfo)
    | none => .error .ioError

def stripBaseDir (basePath fullPath : String) : Option String :=
  if strPrefixOf (basePath.data ++ ['/']) fullPath.data then
    some (String.mk (fullPath.data.drop (basePath.data.length + 1)))
  else none

/-- A relative path is hidden when any segment starts with a dot;
WalkDir skips hidden directories and hidden files. -/
def isHiddenRel (rel : String) : Bool :=
  (splitSlash rel.data).any (fun c => strPrefixOf ['.'] c)

/-- Storage.ListFiles: walk the tree, skip hidden entries, report
forward-slash relative paths with cached hash, size and mtime. WalkDir
enumerates in lexical order; the model keeps the disk map order, which
no verified property depends on. -/
def Storage.ListFiles (s : StorageState) : List FileInfo :=
  s.disk.filterMap (fun e =>
    match stripBaseDir s.basePath e.1 with
    | none => none
    | some rel =>
      if isHiddenRel rel then none
      else some (⟨rel, (lookupA s.hashes rel).getD "", (e.2.content.length : Int), e.2.mtime⟩ : FileInfo))

def Storage.CreateTombstone (s : StorageState) (path deviceID : String)
    (vectorClock : List (String × Int)) : StorageState :=
  let t : Tombstone := ⟨path, s.now, deviceID, vectorClock, s.now + 30 * 24 * 60 * 60⟩
  { s with tombstones := setA s.tombstones path t }

def Storage.GetTombstone (s : StorageState) (path : String) : Option Tombstone :=
  lookupA s.tombstones path

def Storage.DeleteTombstone (s : StorageState) (path : String) : StorageState :=
  { s with tombstones := eraseA s.tombstones path }

def Storage.ListTombstones (s : StorageState) : List Tombstone :=
  s.tombstones.map (·.2)

def Storage.CleanupExpiredTombstones (s : StorageState) : StorageState × Nat :=
  let kept := s.tombstones.filter (fun e => decide (¬ e.2.ttl < s.now))
  ({ s with tombstones := kept }, s.tombstones.length - kept.length)

/-! ## Vector clocks (src/server/sync.go and the client mirror) -/

/-- Reading a clock component: missing components read as 0 (Go map
read of a missing key). -/
def lookVC (vc : List (String × Int)) (d : String) : Int := (lookupA vc d).getD 0

/-- Model of compareVectorClocks (src/server/sync.go lines 102-137).
A nil argument yields "unknown"; otherwise the two greater-flags are
computed over the union of the key sets. -/
def compareVectorClocks (a b : Option (List (String × Int))) : String :=
  match a, b with
  | some a, some b =>
    let allDevices := a.map (·.1) ++ b.map (·.1)
    let aGreater := allDevices.any (fun d => decide (lookVC a d > lookVC b d))
    let bGreater := allDevices.any (fun d => decide (lookVC b d > lookVC a d))
    if aGreater && !bGreater then "after"
    else if bGreater && !aGreater then "before"
    else "concurrent"
  | _, _ => "unknown"

/-- One step of the merge loop: adopt the other component when it is
strictly larger. -/
def setMaxVC (vc : List (String × Int)) (d : String) (c : Int) : List (String × Int) :=
  if c > lookVC vc d then setA vc d c else vc

/-- Component-wise max merge, the loop body shared by the server's
updateVectorClock and the client's mergeVectorClock. -/
def mergeClocks (a b : List (String × Int)) : List (String × Int) :=
  b.foldl (fun acc e => setMaxVC acc e.1 e.2) a

/-- Incrementing one slot of a clock. -/
def bumpClock (vc : List (String × Int)) (d : String) : List (String × Int) :=
  setA vc d (lookVC vc d + 1)

/-! ## Message envelopes (src/server/sync.go types) -/

structure FileChangePayload where
  path : String
  content : String
  mtime : Int
  hash : String
  previousHash : String
  deriving DecidableEq

structure FileDeletePayload where
  path : String
  deriving DecidableEq

structure FileMovePayload where
  oldPath : String
  newPath : String
  content : String
  mtime : Int
  hash : String
  deriving DecidableEq

/-- Inbound payload after JSON decoding. The source carries an untyped
map and extracts fields dynamically; the sum type plays that role, and
nothing stands for a payload of the wrong shape together with the
nothing constructor. A request_file payload is carried by the
fileDelete constructor, exactly as the source reuses
extractFileDeletePayload for it (same shape: just a path). -/
inductive SyncPayload
  | fileChange (p : FileChangePayload)
  | fileDelete (p : FileDeletePayload)
  | fileMove (p : FileMovePayload)
  | nothing
  deriving DecidableEq

structure SyncMessage where
  type : String
  deviceId : String
  timestamp : Int
  vectorClock : Option (List (String × Int))
  payload : SyncPayload
  deriving DecidableEq

structure FullSyncPayload where
  files : List FileInfo
  tombstones : List Tombstone
  vectorClock : Option (List (String × Int))
  deriving DecidableEq

structure ConflictPayload where
  path : String
  serverVersion : FileChangePayload
  clientVersion : FileChangePayload
  resolution : String
  deriving DecidableEq

inductive ServerPayload
  | fileChange (p : FileChangePayload)
  | fileDelete (p : FileDeletePayload)
  | fileMove (p : FileMovePayload)
  | fullSync (p : FullSyncPayload)
  | conflict (p : ConflictPayload)
  | empty
  deriving DecidableEq

structure ServerMessage where
  type : String
  originDevice : String
  payload : ServerPayload
  deriving DecidableEq

/-- Observable transport effects of a server handler: a hub broadcast
(fan-out to every device except the origin) or a targeted send. -/
inductive Effect
  | broadcast (origin : String) (msg : ServerMessage)
  | sendTo (device : String) (msg : ServerMessage)
  deriving DecidableEq

/-! ## Server sync coordinator (src/server/sync.go, current revision) -/

structure SyncState where
  storage : StorageState
  conflictResolution : String
  vectorClock : List (String × Int)
  deriving DecidableEq

def SyncManager.extractFileChangePayload : SyncPayload → Option FileChangePayload
  | .fileChange p => some p
  | _ => none

def SyncManager.extractFileDeletePayload : SyncPayload → Option FileDeletePayload
  | .fileDelete p => some p
  | _ => none

def SyncManager.extractFileMovePayload : SyncPayload → Option FileMovePayload
  | .fileMove p => some p
  | _ => none

/-- updateVectorClock: merge the client clock into the server's global
clock, then increment the slot of the device the message came from. -/
def SyncManager.updateVectorClock (st : SyncState) (deviceID : String)
    (clientClock : List (String × Int)) : SyncState :=
  { st with vectorClock := bumpClock (mergeClocks st.vectorClock clientClock) deviceID }

def SyncManager.handleConflict (st : SyncState) (deviceID : String)
    (clientVersion : FileChangePayload) (serverHash : String) : SyncState × List Effect :=
  if st.conflictResolution = "last_write_wins" then
    match Storage.GetFileInfo st.storage clientVersion.path with
    | .error _ => (st, [])
    | .ok serverInfo =>
      if clientVersion.mtime ≤ serverInfo.mtime then
        match Storage.ReadFile st.storage clientVersion.path with
        | .error _ => (st, [])
        | .ok serverContent =>
          let serverVersion : FileChangePayload :=
            ⟨clientVersion.path, base64Encode serverContent, serverInfo.mtime, serverHash, ""⟩
          (st, [.sendTo deviceID ⟨"file_changed", "server", .fileChange serverVersion⟩])
      else
        let content := (base64Decode clientVersion.content).getD []
        match Storage.WriteFile st.storage clientVersion.path content clientVersion.mtime with
        | .error _ => (st, [])
        | .ok storage' =>
          ({ st with storage := storage' },
           [.broadcast deviceID ⟨"file_changed", deviceID, .fileChange clientVersion⟩])
  else if st.conflictResolution = "manual" then
    match Storage.ReadFile st.storage clientVersion.path with
    | .error _ => (st, [])
    | .ok serverContent =>
      match Storage.GetFileInfo st.storage clientVersion.path with
      | .error _ => (st, [])
      | .ok serverInfo =>
        let serverVersion : FileChangePayload :=
          ⟨clientVersion.path, base64Encode serverContent, serverInfo.mtime, serverHash, ""⟩
        (st, [.sendTo deviceID ⟨"conflict", "",
          .conflict ⟨clientVersion.path, serverVersion, clientVersion, "manual"⟩⟩])
  else (st, [])

def SyncManager.handleFileChange (st : SyncState) (deviceID : String)
    (msg : SyncMessage) : SyncState × List Effect :=
  match SyncManager.extractFileChangePayload msg.payload with
  | none => (st, [])
  | some payload =>
    match base64Decode payload.content with
    | none => (st, [])
    | some content =>
      let existingHash := Storage.GetFileHash st.storage payload.path
      if existingHash ≠ "" ∧ payload.previousHash ≠ "" ∧ existingHash ≠ payload.previousHash then
        SyncManager.handleConflict st deviceID payload existingHash
      else
        match Storage.WriteFile st.storage payload.path content payload.mtime with
        | .error _ => (st, [])
        | .ok storage' =>
          ({ st with storage := storage' },
           [.broadcast deviceID ⟨"file_changed", deviceID, .fileChange payload⟩])

/-- handleFileDelete: a failed physical delete is logged and handling
continues (the file might not exist); the tombstone carries a copy of
the current server clock. -/
def SyncManager.handleFileDelete (st : SyncState) (deviceID : String)
    (msg : SyncMessage) : SyncState × List Effect :=
  match SyncManager.extractFileDeletePayload msg.payload with
  | none => (st, [])
  | some payload =>
    let storage1 := match Storage.DeleteFile st.storage payload.path with
      | .ok s' => s'
      | .error _ => st.storage
    let storage2 := Storage.CreateTombstone storage1 payload.path deviceID st.vectorClock
    ({ st with storage := storage2 },
     [.broadcast deviceID ⟨"file_deleted", deviceID, .fileDelete payload⟩])

def SyncManager.handleFileMove (st : SyncState) (deviceID : String)
    (msg : SyncMessage) : SyncState × List Effect :=
  match SyncManager.extractFileMovePayload msg.payload with
  | none => (st, [])
  | some payload =>
    match base64Decode payload.content with
    | none => (st, [])
    | some content =>
      let storage1 := match Storage.DeleteFile st.storage payload.oldPath with
        | .ok s' => s'
        | .error _ => st.storage
      match Storage.WriteFile storage1 payload.newPath content payload.mtime with
      | .error _ => ({ st with storage := storage1 }, [])
      | .ok storage2 =>
        ({ st with storage := storage2 },
         [.broadcast deviceID ⟨"file_moved", deviceID, .fileMove payload⟩])

def SyncManager.sendFullSync (st : SyncState) (deviceID : String) : SyncState × List Effect :=
  (st, [.sendTo deviceID ⟨"full_sync", "",
    .fullSync ⟨Storage.ListFiles st.storage, Storage.ListTombstones st.storage,
               some st.vectorClock⟩⟩])

def SyncManager.handleRequestFile (st : SyncState) (deviceID : String)
    (msg : SyncMessage) : SyncState × List Effect :=
  match SyncManager.extractFileDeletePayload msg.payload with
  | none => (st, [])
  | some payload =>
    match Storage.ReadFile st.storage payload.path with
    | .error _ => (st, [])
    | .ok content =>
      match Storage.GetFileInfo st.storage payload.path with
      | .error _ => (st, [])
      | .ok fileInfo =>
        (st, [.sendTo deviceID ⟨"file_changed", "server",
          .fileChange ⟨payload.path, base64Encode content, fileInfo.mtime, fileInfo.hash, ""⟩⟩])

/-- The switch statement of HandleMessage: dispatch by message type;
unknown types are logged and ignored. -/
def SyncManager.dispatch (st : SyncState) (deviceID : String)
    (msg : SyncMessage) : SyncState × List Effect :=
  if msg.type = "file_change" then SyncManager.handleFileChange st deviceID msg
  else if msg.type = "file_delete" then SyncManager.handleFileDelete st deviceID msg
  else if msg.type = "file_move" then SyncManager.handleFileMove st deviceID msg
  else if msg.type = "request_full_sync" then SyncManager.sendFullSync st deviceID
  else if msg.type = "request_file" then SyncManager.handleRequestFile st deviceID msg
  else if msg.type = "ping" then (st, [.sendTo deviceID ⟨"pong", "", .empty⟩])
  else (st, [])

/-- HandleMessage (src/server/sync.go lines 139-160): when the message
carries a non-nil vector clock it is merged and the sender's slot is
incremented, before and independently of the per-type dispatch. -/
def SyncManager.HandleMessage (st : SyncState) (deviceID : String)
    (msg : SyncMessage) : SyncState × List Effect :=
  let st := match msg.vectorClock with
    | some clientClock => SyncManager.updateVectorClock st deviceID clientClock
    | none => st
  SyncManager.dispatch st deviceID msg

/-! ## Connection hub (Hub.Run broadcast delivery, Hub.SendTo) -/

/-- Hub state: per-device bounded send queues (channel capacity 256). -/
structure HubState where
  clients : List (String × List ServerMessage)
  deriving DecidableEq

/-- Hub.Broadcast followed by the broadcast arm of Hub.Run: every
device other than the origin receives the message, unless its send
queue is full, in which case the message is dropped for that device. -/
def Hub.Broadcast (h : HubState) (origin : String) (m : ServerMessage) : HubState :=
  ⟨h.clients.map (fun c =>
    if c.1 ≠ origin ∧ c.2.length < 256 then (c.1, c.2 ++ [m]) else c)⟩

/-- Hub.SendTo: non-blocking enqueue to one device; missing device or
full queue drops the message. -/
def Hub.SendTo (h : HubState) (deviceID : String) (m : ServerMessage) : HubState :=
  match lookupA h.clients deviceID with
  | none => h
  | some q => if q.length < 256 then ⟨setA h.clients deviceID (q ++ [m])⟩ else h

/-! ## Auth gate (AuthManager in the storage source file) -/

structure DeviceToken where
  token : String
  deviceID : String
  name : String
  deriving DecidableEq

/-- Auth state: the master token and the device-token table keyed by
device id, as populated by GenerateDeviceToken. -/
structure AuthState where
  masterToken : String
  deviceTokens : List (String × DeviceToken)
  deriving DecidableEq

/-- subtle.ConstantTimeCompare returns 1 exactly when the two byte
strings are equal; the model keeps the result, not the timing. -/
def constantTimeCompare (a b : String) : Bool := decide (a = b)

/-- AuthManager.ValidateToken: empty tokens are rejected up front; a
non-empty master token is compared first; then the device-token table
is scanned. -/
def AuthManager.ValidateToken (a : AuthState) (token : String) : String × Bool :=
  if token = "" then ("", false)
  else if a.masterToken ≠ "" ∧ constantTimeCompare token a.masterToken = true then
    ("master", true)
  else
    match a.deviceTokens.find? (fun e => constantTimeCompare token e.2.token) with
    | some e => (e.2.deviceID, true)
    | none => ("", false)

/-! ## Client sync coordinator (src/plugin/sync.ts) -/

/-- A file of the local vault as the host exposes it: path, stat
mtime, and the bytes the host reads. -/
structure LocalFile where
  path : String
  mtime : Int
  content : List Nat
  deriving DecidableEq

/-- Client state: the device id from settings, the vault's files, the
local hash cache, and the client vector clock. -/
structure ClientState where
  deviceId : String
  files : List LocalFile
  localHashes : List (String × String)
  vectorClock : List (String × Int)
  deriving DecidableEq

/-- An outbound frame the client sends over the socket. The wall-clock
timestamp the source stamps frames with is abstracted to 0. -/
inductive ClientAction
  | send (msg : SyncMessage)
  deriving DecidableEq

def Client.incrementVectorClock (st : ClientState) : ClientState :=
  { st with vectorClock := bumpClock st.vectorClock st.deviceId }

def Client.mergeVectorClock (st : ClientState) (remote : List (String × Int)) : ClientState :=
  { st with vectorClock := mergeClocks st.vectorClock remote }

/-- sendFileChange: read the file, hash it, remember the previous
cached hash as previousHash (absent reads as the empty string on the
Go side), update the cache, bump the own clock slot, send. -/
def Client.sendFileChange (st : ClientState) (file : LocalFile) : ClientState × List ClientAction :=
  let hash := sha256hex file.content
  let previousHash := (lookupA st.localHashes file.path).getD ""
  let st1 := { st with localHashes := setA st.localHashes file.path hash }
  let st2 := Client.incrementVectorClock st1
  (st2, [.send ⟨"file_change", st2.deviceId, 0, some st2.vectorClock,
    .fileChange ⟨file.path, base64Encode file.content, file.mtime, hash, previousHash⟩⟩])

def Client.sendFileDelete (st : ClientState) (path : String) : ClientState × List ClientAction :=
  let st1 := { st with localHashes := eraseA st.localHashes path }
  let st2 := Client.incrementVectorClock st1
  (st2, [.send ⟨"file_delete", st2.deviceId, 0, some st2.vectorClock, .fileDelete ⟨path⟩⟩])

def Client.requestFile (st : ClientState) (path : String) : ClientState × List ClientAction :=
  let st1 := Client.incrementVectorClock st
  (st1, [.send ⟨"request_file", st1.deviceId, 0, some st1.vectorClock, .fileDelete ⟨path⟩⟩])

/-- One file of the local hashing pass of handleFullSync: use the
cached hash or compute and cache one, and extend the hash-to-file map
used for move detection. -/
def Client.hashPassStep (acc : ClientState × List (String × LocalFile)) (f : LocalFile) :
    ClientState × List (String × LocalFile) :=
  match lookupA acc.1.localHashes f.path with
  | some h => (acc.1, setA acc.2 h f)
  | none =>
    let h := sha256hex f.content
    ({ acc.1 with localHashes := setA acc.1.localHashes f.path h }, setA acc.2 h f)

/-- The local hashing pass of handleFullSync over all local files. -/
def Client.hashPass (st : ClientState) (localFiles : List LocalFile) :
    ClientState × List (String × LocalFile) :=
  localFiles.foldl Client.hashPassStep (st, [])

/-- One iteration of the loop over server files: download a missing
file, or detect a move (same hash at another local path) and delete
the stale server path, or compare mtimes at the shared path. -/
def Client.serverPassStep (localFileMap : List (String × LocalFile))
    (localHashToFile : List (String × LocalFile))
    (acc : ClientState × List ClientAction) (e : String × FileInfo) :
    ClientState × List ClientAction :=
  match lookupA localFileMap e.1 with
  | none =>
    match lookupA localHashToFile e.2.hash with
    | some _ =>
      let r := Client.sendFileDelete acc.1 e.1
      (r.1, acc.2 ++ r.2)
    | none =>
      let r := Client.requestFile acc.1 e.1
      (r.1, acc.2 ++ r.2)
  | some localFile =>
    if localFile.mtime > e.2.mtime then
      let r := Client.sendFileChange acc.1 localFile
      (r.1, acc.2 ++ r.2)
    else if localFile.mtime < e.2.mtime then
      let r := Client.requestFile acc.1 e.1
      (r.1, acc.2 ++ r.2)
    else (acc.1, acc.2)

/-- One iteration of the loop over local-only files: a tombstone for
the path deletes the local file; otherwise the file is uploaded (the
two upload branches of the source differ only in their debug log). -/
def Client.localPassStep (tombstoneMap : List (String × Tombstone))
    (serverHashToPath : List (String × String))
    (localFileMap : List (String × LocalFile))
    (acc : ClientState × List ClientAction) (file : LocalFile) :
    ClientState × List ClientAction :=
  let hash := lookupA acc.1.localHashes file.path
  let serverPath := match hash with
    | some h => lookupA serverHashToPath h
    | none => none
  match lookupA tombstoneMap file.path with
  | some _ =>
    ({ acc.1 with files := acc.1.files.filter (fun g => decide (g.path ≠ file.path)),
                  localHashes := eraseA acc.1.localHashes file.path }, acc.2)
  | none =>
    match serverPath with
    | some sp =>
      if (lookupA localFileMap sp).isNone then
        let r := Client.sendFileChange acc.1 file
        (r.1, acc.2 ++ r.2)
      else
        let r := Client.sendFileChange acc.1 file
        (r.1, acc.2 ++ r.2)
    | none =>
      let r := Client.sendFileChange acc.1 file
      (r.1, acc.2 ++ r.2)

/-- handleFullSync (src/plugin/sync.ts lines 469-600): merge the
server clock, index the server files by path and by hash, enumerate
non-hidden local files, hash them, then run the server-files pass and
the local-only pass. JS Map insertion/iteration order is modeled by
the association lists built with setA. -/
def Client.handleFullSync (st : ClientState) (payload : FullSyncPayload) :
    ClientState × List ClientAction :=
  let st := match payload.vectorClock with
    | some c => Client.mergeVectorClock st c
    | none => st
  let serverFiles := payload.files.foldl (fun m f => setA m f.path f) []
  let serverHashToPath := payload.files.foldl (fun m f => setA m f.hash f.path) []
  let localFiles := st.files.filter (fun f => !(strPrefixOf ['.'] f.path.data))
  let localFileMap := localFiles.foldl (fun m f => setA m f.path f) []
  let hp := Client.hashPass st localFiles
  let localOnlyFiles := (localFileMap.filter (fun e => (lookupA serverFiles e.1).isNone)).map (·.2)
  let sp := serverFiles.foldl (Client.serverPassStep localFileMap hp.2) (hp.1, [])
  let tombstoneMap := payload.tombstones.foldl (fun m t => setA m t.path t) []
  localOnlyFiles.foldl (Client.localPassStep tombstoneMap serverHashToPath localFileMap) sp

/-! ## Helper lemmas about the storage operations -/

theorem validatePath_congr (s s' : StorageState) (p : String)
    (h : s'.basePath = s.basePath) :
    Storage.validatePath s' p = Storage.validatePath s p := by
  unfold Storage.validatePath
  rw [h]

instance {ε α : Type} [DecidableEq ε] [DecidableEq α] : DecidableEq (Except ε α) := fun a b =>
  match a, b with
  | .ok x, .ok y =>
    if h : x = y then .isTrue (h ▸ rfl) else .isFalse (fun hh => h (Except.ok.inj hh))
  | .error x, .error y =>
    if h : x = y then .isTrue (h ▸ rfl) else .isFalse (fun hh => h (Except.error.inj hh))
  | .ok _, .error _ => .isFalse (fun hh => Except.noConfusion hh)
  | .error _, .ok _ => .isFalse (fun hh => Except.noConfusion hh)

theorem WriteFile_ok_elim {s : StorageState} {p : String} {b : List Nat} {m : Int}
    {s' : StorageState} (h : Storage.WriteFile s p b m = Except.ok s') :
    ∃ fp, Storage.validatePath s p = Except.ok fp ∧
      ¬ ((b.length : Int) > s.maxFileSizeMB * 1024 * 1024) ∧
      s' = { s with disk := setA s.disk fp ⟨b, if m > 0 then m else s.now * 1000⟩,
                    hashes := setA s.hashes p (sha256hex b) } := by
  unfold Storage.WriteFile at h
  split at h
  · exact absurd h (by simp)
  · rename_i fp hv
    by_cases hsz : (b.length : Int) > s.maxFileSizeMB * 1024 * 1024
    · rw [if_pos hsz] at h; exact absurd h (by simp)
    · rw [if_neg hsz] at h
      refine ⟨fp, hv, hsz, ?_⟩
      exact (Except.ok.inj h).symm

theorem GetFileInfo_ok_elim {s : StorageState} {p : String} {info : FileInfo}
    (h : Storage.GetFileInfo s p = Except.ok info) :
    ∃ fp df, Storage.validatePath s p = Except.ok fp ∧ lookupA s.disk fp = some df ∧
      info = ⟨p, (lookupA s.hashes p).getD "", (df.content.length : Int), df.mtime⟩ := by
  unfold Storage.GetFileInfo at h
  split at h
  · exact absurd h (by simp)
  · rename_i fp hv
    split at h
    · rename_i df hd
      exact ⟨fp, df, hv, hd, (Except.ok.inj h).symm⟩
    · exact absurd h (by simp)

theorem ReadFile_of_disk {s : StorageState} {p fp : String} {df : DiskFile}
    (hv : Storage.validatePath s p = Except.ok fp)
    (hd : lookupA s.disk fp = some df) :
    Storage.ReadFile s p = Except.ok df.content := by
  simp [Storage.ReadFile, hv, hd]

/-! ## C8: hash-content agreement after a write -/

/-- Claim C8: for every path p, byte sequence b and mtime m, after
every successful WriteFile(p, b, m) the cached hash GetFileHash(p)
equals the lowercase hex SHA-256 of b and ReadFile(p) returns b. -/
theorem C8_write_read_hash (s : StorageState) (p : String) (b : List Nat) (m : Int)
    (s' : StorageState) (h : Storage.WriteFile s p b m = Except.ok s') :
    Storage.GetFileHash s' p = sha256hex b ∧ Storage.ReadFile s' p = Except.ok b := by
  obtain ⟨fp, hv, hsz, hs'⟩ := WriteFile_ok_elim h
  subst hs'
  constructor
  · unfold Storage.GetFileHash
    simp only [lookupA_setA_self, Option.getD_some]
  · have hv' : Storage.validatePath
        { s with disk := setA s.disk fp ⟨b, if m > 0 then m else s.now * 1000⟩,
                 hashes := setA s.hashes p (sha256hex b) } p = Except.ok fp := by
      exact (validatePath_congr s _ p rfl).trans hv
    simp [Storage.ReadFile, hv', lookupA_setA_self]

def stC8 : StorageState := ⟨"/vault", 50, [], [], [], 1000⟩

set_option maxRecDepth 100000 in
/-- Witness for C8 at a concrete write of the bytes of hi. -/
theorem C8_witness :
    Storage.GetFileHash ((Storage.WriteFile stC8 "a.md" [104, 105] 5).toOption.getD stC8) "a.md"
      = sha256hex [104, 105] ∧
    Storage.ReadFile ((Storage.WriteFile stC8 "a.md" [104, 105] 5).toOption.getD stC8) "a.md"
      = Except.ok [104, 105] :=
  C8_write_read_hash stC8 "a.md" [104, 105] 5 _ (by decide)

/-! ## C9: broadcast excludes the origin device -/

/-- Claim C9: for every broadcast(origin, msg) and every device d, the
queue of d either is unchanged or has the message appended, and the
latter happens only when d differs from the origin; in particular the
origin's queue is never touched. -/
theorem C9_broadcast_excludes_origin (h : HubState) (origin : String)
    (m : ServerMessage) (d : String) :
    lookupA (Hub.Broadcast h origin m).clients d = lookupA h.clients d ∨
    (d ≠ origin ∧ lookupA (Hub.Broadcast h origin m).clients d =
      (lookupA h.clients d).map (fun q => q ++ [m])) := by
  obtain ⟨l⟩ := h
  simp only [Hub.Broadcast]
  induction l with
  | nil => left; rfl
  | cons e rest ih =>
    simp only [List.map_cons]
    by_cases hc : e.1 ≠ origin ∧ e.2.length < 256
    · rw [if_pos hc]
      by_cases hk : e.1 = d
      · right
        refine ⟨hk ▸ hc.1, ?_⟩
        simp [lookupA, hk]
      · rcases ih with ih | ⟨hdo, ih⟩
        · left; simp only [lookupA, hk, if_neg hk]; exact ih
        · right; exact ⟨hdo, by simp only [lookupA, hk, if_neg hk]; exact ih⟩
    · rw [if_neg hc]
      by_cases hk : e.1 = d
      · left; simp [lookupA, hk]
      · rcases ih with ih | ⟨hdo, ih⟩
        · left; simp only [lookupA, hk, if_neg hk]; exact ih
        · right; exact ⟨hdo, by simp only [lookupA, hk, if_neg hk]; exact ih⟩

/-! ## C10: empty tokens and the empty master token -/

def authCx : AuthState := ⟨"", [("dev1", ⟨"t", "master", "phone"⟩)]⟩

/-- Counterexample to C10 as stated: with an empty configured master
token, a device token whose associated device id is the string master
still authenticates its caller as master. -/
theorem C10_counterexample :
    authCx.masterToken = "" ∧ AuthManager.ValidateToken authCx "t" = ("master", true) := by
  constructor <;> rfl

/-- Claim C10 amended: the empty token is always unauthorized without
matching any entry; with an empty master token the master-token
comparison never succeeds, so a caller can only obtain the identity
master from a device token whose device id is master. -/
theorem C10_validateToken_amended (a : AuthState) (tok : String) :
    AuthManager.ValidateToken a "" = ("", false) ∧
    (a.masterToken = "" → AuthManager.ValidateToken a tok = ("master", true) →
      ∃ e ∈ a.deviceTokens, e.2.deviceID = "master" ∧ e.2.token = tok) := by
  constructor
  · simp [AuthManager.ValidateToken]
  · intro hm hv
    unfold AuthManager.ValidateToken at hv
    by_cases ht : tok = ""
    · rw [if_pos ht] at hv; exact absurd hv (by simp)
    · rw [if_neg ht] at hv
      have hmt : ¬ (a.masterToken ≠ "" ∧ constantTimeCompare tok a.masterToken = true) := by
        simp [hm]
      rw [if_neg hmt] at hv
      cases hf : a.deviceTokens.find? (fun e => constantTimeCompare tok e.2.token) with
      | none => rw [hf] at hv; exact absurd hv (by simp)
      | some e =>
        rw [hf] at hv
        have hid : e.2.deviceID = "master" := congrArg Prod.fst hv
        have hmem : e ∈ a.deviceTokens := List.mem_of_find?_eq_some hf
        have hpred := List.find?_some hf
        have htok : tok = e.2.token := by
          simpa [constantTimeCompare] using hpred
        exact ⟨e, hmem, hid, htok.symm⟩

/-- Witness for the amended C10, at the counterexample auth state. -/
theorem C10_witness :
    AuthManager.ValidateToken authCx "" = ("", false) ∧
    ∃ e ∈ authCx.deviceTokens, e.2.deviceID = "master" ∧ e.2.token = "t" :=
  ⟨(C10_validateToken_amended authCx "t").1,
   (C10_validateToken_amended authCx "t").2 rfl (by decide)⟩

/-! ## C4: path validation -/

def stC4 : StorageState := ⟨"/data/vault", 50, [], [], [], 0⟩

/-- Counterexample to C4 as stated: an input with a dot-dot component
that cancels during cleaning is accepted; an absolute input is
accepted (resolved under the root); and the accepted input dot
resolves to the storage root itself, which is not a strict
descendant. -/
theorem C4_counterexample :
    Storage.validatePath stC4 "a/../b" = Except.ok "/data/vault/b" ∧
    Storage.validatePath stC4 "/etc/passwd" = Except.ok "/data/vault/etc/passwd" ∧
    Storage.validatePath stC4 "." = Except.ok "/data/vault" := by
  decide

/-- Claim C4 amended: validatePath rejects the empty input and any
input whose cleaned form still contains dot-dot (in particular any
leading dot-dot component); inner dot-dot components and absolute
prefixes are instead resolved away by cleaning and joining under the
root; every accepted result is the cleaned input joined under the
storage root and has the root as a string prefix (not necessarily a
strict descendant). -/
theorem C4_validatePath_amended (s : StorageState) (p : String) :
    (p = "" → Storage.validatePath s p = Except.error StorageErr.invalidPath) ∧
    (listContainsSub (pathClean p).data ['.', '.'] = true →
      ∃ e, Storage.validatePath s p = Except.error e) ∧
    (∀ fp, Storage.validatePath s p = Except.ok fp →
      fp = pathJoin s.basePath (pathClean p) ∧
      strPrefixOf s.basePath.data fp.data = true) := by
  refine ⟨?_, ?_, ?_⟩
  · intro hp
    simp [Storage.validatePath, hp]
  · intro hc
    by_cases hp : p = ""
    · exact ⟨StorageErr.invalidPath, by simp [Storage.validatePath, hp]⟩
    · exact ⟨StorageErr.pathTraversal, by simp [Storage.validatePath, hp, hc]⟩
  · intro fp hok
    unfold Storage.validatePath at hok
    by_cases hp : p = ""
    · rw [if_pos hp] at hok; exact absurd hok (by simp)
    · rw [if_neg hp] at hok
      by_cases hc : listContainsSub (pathClean p).data ['.', '.'] = true
      · rw [if_pos hc] at hok; exact absurd hok (by simp)
      · rw [if_neg hc] at hok
        by_cases hpre : strPrefixOf s.basePath.data (pathJoin s.basePath (pathClean p)).data = true
        · rw [if_pos hpre] at hok
          refine ⟨(Except.ok.inj hok).symm, ?_⟩
          rw [(Except.ok.inj hok).symm]
          exact hpre
        · rw [if_neg hpre] at hok; exact absurd hok (by simp)

/-- Witness for the amended C4 at concrete inputs: the empty path, a
leading dot-dot path, and an ordinary relative path. -/
theorem C4_witness :
    Storage.validatePath stC4 "" = Except.error StorageErr.invalidPath ∧
    (∃ e, Storage.validatePath stC4 "../x" = Except.error e) ∧
    ("/data/vault/notes/a.md" = pathJoin stC4.basePath (pathClean "notes/a.md") ∧
     strPrefixOf stC4.basePath.data "/data/vault/notes/a.md".data = true) :=
  ⟨(C4_validatePath_amended stC4 "").1 rfl,
   (C4_validatePath_amended stC4 "../x").2.1 (by decide),
   (C4_validatePath_amended stC4 "notes/a.md").2.2 "/data/vault/notes/a.md" (by decide)⟩

/-! ## C5: vector clock comparison -/

theorem lookupA_ne_none_mem {α : Type} (l : List (String × α)) (d : String)
    (h : lookupA l d ≠ none) : d ∈ l.map (·.1) := by
  induction l with
  | nil => exact absurd rfl h
  | cons e rest ih =>
    by_cases he : e.1 = d
    · simp [he]
    · simp only [lookupA, if_neg he] at h
      simp [ih h]

theorem lookVC_zero_of_not_mem (l : List (String × Int)) (d : String)
    (h : d ∉ l.map (·.1)) : lookVC l d = 0 := by
  unfold lookVC
  cases hl : lookupA l d with
  | none => rfl
  | some v => exact absurd (lookupA_ne_none_mem l d (by simp [hl])) h

theorem lookVC_lt_mem (x y : List (String × Int)) (d : String)
    (hd : lookVC y d < lookVC x d) : d ∈ x.map (·.1) ∨ d ∈ y.map (·.1) := by
  by_cases ha : d ∈ x.map (·.1)
  · exact Or.inl ha
  · by_cases hb : d ∈ y.map (·.1)
    · exact Or.inr hb
    · rw [lookVC_zero_of_not_mem x d ha, lookVC_zero_of_not_mem y d hb] at hd
      exact absurd hd (lt_irrefl 0)

theorem anyGT_iff (keys : List String) (a b : List (String × Int))
    (hsup : ∀ d, lookVC b d < lookVC a d → d ∈ keys) :
    (keys.any (fun d => decide (lookVC a d > lookVC b d)) = true) ↔
      ∃ d, lookVC b d < lookVC a d := by
  rw [List.any_eq_true]
  constructor
  · rintro ⟨d, _, hd⟩
    exact ⟨d, by simpa using hd⟩
  · rintro ⟨d, hd⟩
    exact ⟨d, hsup d hd, by simpa using hd⟩

open Classical in
/-- The comparison function in terms of the component-wise order with
missing components read as 0. -/
theorem compareVC_spec (x y : List (String × Int)) :
    compareVectorClocks (some x) (some y) =
      (if (∃ d, lookVC y d < lookVC x d) ∧ ¬ (∃ d, lookVC x d < lookVC y d) then "after"
       else if (∃ d, lookVC x d < lookVC y d) ∧ ¬ (∃ d, lookVC y d < lookVC x d) then "before"
       else "concurrent") := by
  simp only [compareVectorClocks]
  have h1 := anyGT_iff (x.map (·.1) ++ y.map (·.1)) x y
    (fun d hd => List.mem_append.mpr (lookVC_lt_mem x y d hd))
  have h2 := anyGT_iff (x.map (·.1) ++ y.map (·.1)) y x
    (fun d hd => List.mem_append.mpr (Or.symm (lookVC_lt_mem y x d hd)))
  by_cases hax : (x.map (·.1) ++ y.map (·.1)).any
      (fun d => decide (lookVC x d > lookVC y d)) = true
  · by_cases hay : (x.map (·.1) ++ y.map (·.1)).any
        (fun d => decide (lookVC y d > lookVC x d)) = true
    · have c1 : ¬ ((∃ d, lookVC y d < lookVC x d) ∧ ¬ (∃ d, lookVC x d < lookVC y d)) :=
        fun hc => hc.2 (h2.mp hay)
      have c2 : ¬ ((∃ d, lookVC x d < lookVC y d) ∧ ¬ (∃ d, lookVC y d < lookVC x d)) :=
        fun hc => hc.2 (h1.mp hax)
      have hbf : ¬ ((true && !true) = true) := by decide
      rw [hax, hay, if_neg hbf, if_neg hbf, if_neg c1, if_neg c2]
    · have hne : ¬ ∃ d, lookVC x d < lookVC y d := fun hE => hay (h2.mpr hE)
      have c1 : (∃ d, lookVC y d < lookVC x d) ∧ ¬ (∃ d, lookVC x d < lookVC y d) :=
        ⟨h1.mp hax, hne⟩
      rw [Bool.not_eq_true] at hay
      rw [hax, hay, if_pos (show ((true && !false) = true) by decide), if_pos c1]
  · by_cases hay : (x.map (·.1) ++ y.map (·.1)).any
        (fun d => decide (lookVC y d > lookVC x d)) = true
    · have hne : ¬ ∃ d, lookVC y d < lookVC x d := fun hE => hax (h1.mpr hE)
      have c1 : ¬ ((∃ d, lookVC y d < lookVC x d) ∧ ¬ (∃ d, lookVC x d < lookVC y d)) :=
        fun hc => hne hc.1
      have c2 : (∃ d, lookVC x d < lookVC y d) ∧ ¬ (∃ d, lookVC y d < lookVC x d) :=
        ⟨h2.mp hay, hne⟩
      rw [Bool.not_eq_true] at hax
      rw [hax, hay, if_neg (show ¬ ((false && !true) = true) by decide),
          if_pos (show ((true && !false) = true) by decide), if_neg c1, if_pos c2]
    · have hnx : ¬ ∃ d, lookVC y d < lookVC x d := fun hE => hax (h1.mpr hE)
      have hny : ¬ ∃ d, lookVC x d < lookVC y d := fun hE => hay (h2.mpr hE)
      have c1 : ¬ ((∃ d, lookVC y d < lookVC x d) ∧ ¬ (∃ d, lookVC x d < lookVC y d)) :=
        fun hc => hnx hc.1
      have c2 : ¬ ((∃ d, lookVC x d < lookVC y d) ∧ ¬ (∃ d, lookVC y d < lookVC x d)) :=
        fun hc => hny hc.1
      rw [Bool.not_eq_true] at hax hay
      have hff : ¬ ((false && !false) = true) := by decide
      rw [hax, hay, if_neg hff, if_neg hff, if_neg c1, if_neg c2]

theorem lookVC_setA (vc : List (String × Int)) (e d : String) (c : Int) :
    lookVC (setA vc e c) d = if d = e then c else lookVC vc d := by
  unfold lookVC
  by_cases hd : d = e
  · rw [if_pos hd, hd, lookupA_setA_self]; rfl
  · rw [if_neg hd, lookupA_setA_ne _ _ _ _ hd]

theorem lookVC_le_setMaxVC (vc : List (String × Int)) (e : String) (c : Int) (d : String) :
    lookVC vc d ≤ lookVC (setMaxVC vc e c) d := by
  unfold setMaxVC
  by_cases hgt : c > lookVC vc e
  · rw [if_pos hgt, lookVC_setA]
    by_cases hd : d = e
    · rw [if_pos hd, hd]; exact le_of_lt hgt
    · rw [if_neg hd]
  · rw [if_neg hgt]

theorem lookVC_le_mergeClocks (a b : List (String × Int)) (d : String) :
    lookVC a d ≤ lookVC (mergeClocks a b) d := by
  unfold mergeClocks
  induction b generalizing a with
  | nil => exact le_refl _
  | cons e rest ih =>
    calc lookVC a d ≤ lookVC (setMaxVC a e.1 e.2) d := lookVC_le_setMaxVC a e.1 e.2 d
      _ ≤ _ := ih (setMaxVC a e.1 e.2)

def vcCx : List (String × Int) := [("d1", 1)]

/-- Counterexample to C5 as stated: two equal clocks compare as
concurrent, not equal, and compare(a, merge(a, b)) falls outside the
claimed set equal-or-before since merge(a, b) can equal a. -/
theorem C5_counterexample :
    compareVectorClocks (some vcCx) (some vcCx) = "concurrent" ∧
    compareVectorClocks (some vcCx) (some (mergeClocks vcCx [])) = "concurrent" := by
  decide

/-- Claim C5 amended: compareVectorClocks never returns equal (it
returns unknown on nil inputs); it returns after exactly when a
strictly dominates b under the component-wise rule with missing
components read as 0, before symmetrically, and concurrent otherwise,
including for pointwise-equal clocks; consequently
compare(a, merge(a, b)) is before or concurrent. -/
theorem C5_compare_amended (a b : List (String × Int)) :
    compareVectorClocks (some a) (some b) ≠ "equal" ∧
    (compareVectorClocks (some a) (some b) = "after" ↔
      (∃ d, lookVC b d < lookVC a d) ∧ (∀ d, lookVC b d ≤ lookVC a d)) ∧
    (compareVectorClocks (some a) (some b) = "before" ↔
      (∃ d, lookVC a d < lookVC b d) ∧ (∀ d, lookVC a d ≤ lookVC b d)) ∧
    (compareVectorClocks (some a) (some (mergeClocks a b)) = "before" ∨
     compareVectorClocks (some a) (some (mergeClocks a b)) = "concurrent") := by
  refine ⟨?_, ?_, ?_, ?_⟩
  · rw [compareVC_spec]
    split
    · decide
    · split
      · decide
      · decide
  · rw [compareVC_spec]
    constructor
    · intro h
      by_cases c1 : (∃ d, lookVC b d < lookVC a d) ∧ ¬ (∃ d, lookVC a d < lookVC b d)
      · exact ⟨c1.1, fun d => not_lt.mp (fun hlt => c1.2 ⟨d, hlt⟩)⟩
      · rw [if_neg c1] at h
        by_cases c2 : (∃ d, lookVC a d < lookVC b d) ∧ ¬ (∃ d, lookVC b d < lookVC a d)
        · rw [if_pos c2] at h; exact absurd h (by decide)
        · rw [if_neg c2] at h; exact absurd h (by decide)
    · rintro ⟨⟨d, hd⟩, hall⟩
      have c1 : (∃ d, lookVC b d < lookVC a d) ∧ ¬ (∃ d, lookVC a d < lookVC b d) :=
        ⟨⟨d, hd⟩, fun hE => absurd hE.choose_spec (not_lt.mpr (hall hE.choose))⟩
      rw [if_pos c1]
  · rw [compareVC_spec]
    constructor
    · intro h
      by_cases c1 : (∃ d, lookVC b d < lookVC a d) ∧ ¬ (∃ d, lookVC a d < lookVC b d)
      · rw [if_pos c1] at h; exact absurd h (by decide)
      · rw [if_neg c1] at h
        by_cases c2 : (∃ d, lookVC a d < lookVC b d) ∧ ¬ (∃ d, lookVC b d < lookVC a d)
        · exact ⟨c2.1, fun d => not_lt.mp (fun hlt => c2.2 ⟨d, hlt⟩)⟩
        · rw [if_neg c2] at h; exact absurd h (by decide)
    · rintro ⟨⟨d, hd⟩, hall⟩
      have c1 : ¬ ((∃ e, lookVC b e < lookVC a e) ∧ ¬ (∃ e, lookVC a e < lookVC b e)) :=
        fun hc => hc.2 ⟨d, hd⟩
      have c2 : (∃ e, lookVC a e < lookVC b e) ∧ ¬ (∃ e, lookVC b e < lookVC a e) :=
        ⟨⟨d, hd⟩, fun hE => absurd hE.choose_spec (not_lt.mpr (hall hE.choose))⟩
      rw [if_neg c1, if_pos c2]
  · have hnone : ¬ ∃ d, lookVC (mergeClocks a b) d < lookVC a d :=
      fun hE => absurd hE.choose_spec (not_lt.mpr (lookVC_le_mergeClocks a b hE.choose))
    rw [compareVC_spec]
    by_cases c2 : (∃ d, lookVC a d < lookVC (mergeClocks a b) d) ∧
        ¬ (∃ d, lookVC (mergeClocks a b) d < lookVC a d)
    · rw [if_neg (fun hc => hnone hc.1), if_pos c2]
      exact Or.inl rfl
    · rw [if_neg (fun hc => hnone hc.1), if_neg c2]
      exact Or.inr rfl

/-! ## C7: vector clock updates on inbound messages -/

theorem handleConflict_clock (st : SyncState) (dev : String) (cv : FileChangePayload)
    (sh : String) : (SyncManager.handleConflict st dev cv sh).1.vectorClock = st.vectorClock := by
  unfold SyncManager.handleConflict
  repeat' split
  all_goals (try (dsimp only; repeat' split))
  all_goals rfl

theorem handleFileChange_clock (st : SyncState) (dev : String) (msg : SyncMessage) :
    (SyncManager.handleFileChange st dev msg).1.vectorClock = st.vectorClock := by
  unfold SyncManager.handleFileChange
  repeat' split
  all_goals (try (dsimp only; repeat' split))
  all_goals first | rfl | apply handleConflict_clock

theorem handleFileDelete_clock (st : SyncState) (dev : String) (msg : SyncMessage) :
    (SyncManager.handleFileDelete st dev msg).1.vectorClock = st.vectorClock := by
  unfold SyncManager.handleFileDelete
  repeat' split
  all_goals (try (dsimp only; repeat' split))
  all_goals rfl

theorem handleFileMove_clock (st : SyncState) (dev : String) (msg : SyncMessage) :
    (SyncManager.handleFileMove st dev msg).1.vectorClock = st.vectorClock := by
  unfold SyncManager.handleFileMove
  repeat' split
  all_goals (try (dsimp only; repeat' split))
  all_goals rfl

theorem handleRequestFile_clock (st : SyncState) (dev : String) (msg : SyncMessage) :
    (SyncManager.handleRequestFile st dev msg).1.vectorClock = st.vectorClock := by
  unfold SyncManager.handleRequestFile
  repeat' split
  all_goals rfl

theorem dispatch_clock (st : SyncState) (dev : String) (msg : SyncMessage) :
    (SyncManager.dispatch st dev msg).1.vectorClock = st.vectorClock := by
  unfold SyncManager.dispatch
  repeat' split
  all_goals first
    | rfl
    | apply handleFileChange_clock
    | apply handleFileDelete_clock
    | apply handleFileMove_clock
    | apply handleRequestFile_clock

/-- Claim C7 corrected: the server's global vector clock is updated
exactly when the inbound message carries a non-nil vector clock -
whatever the message type and whether or not a mutation is accepted:
the client clock is merged in component-wise and the slot of the
sending device is incremented (the server maintains no slot of its
own). A nil clock leaves the global clock untouched even for an
accepted mutation. -/
theorem C7_HandleMessage_clock (st : SyncState) (dev : String) (msg : SyncMessage) :
    (SyncManager.HandleMessage st dev msg).1.vectorClock =
      match msg.vectorClock with
      | some c => bumpClock (mergeClocks st.vectorClock c) dev
      | none => st.vectorClock := by
  unfold SyncManager.HandleMessage
  cases msg.vectorClock with
  | none => exact dispatch_clock st dev msg
  | some c => exact dispatch_clock (SyncManager.updateVectorClock st dev c) dev msg

def svSt0 : SyncState := ⟨⟨"/vault", 50, [], [], [], 1000⟩, "last_write_wins", []⟩

def pingMsgCx : SyncMessage := ⟨"ping", "d1", 0, some [("d1", 0)], .nothing⟩

def changeMsgCx : SyncMessage :=
  ⟨"file_change", "d1", 0, none, .fileChange ⟨"a.md", "aA==", 5, "x", ""⟩⟩

set_option maxRecDepth 100000 in
/-- Counterexample to C7 as stated: a ping (not a mutation) carrying a
vector clock causes a slot increment of the server's global clock,
while an accepted file_change (a mutation, whose write is visible in
storage afterwards) carrying a nil clock increments no slot at all. -/
theorem C7_counterexample :
    (SyncManager.HandleMessage svSt0 "d1" pingMsgCx).1.vectorClock = [("d1", 1)] ∧
    (SyncManager.HandleMessage svSt0 "d1" changeMsgCx).1.vectorClock = [] ∧
    Storage.ReadFile (SyncManager.HandleMessage svSt0 "d1" changeMsgCx).1.storage "a.md" =
      Except.ok [104] := by
  decide

/-! ## C2 and C3: tombstones on the file_change path -/

theorem WriteFile_tombstones {s : StorageState} {p : String} {b : List Nat} {m : Int}
    {s' : StorageState} (h : Storage.WriteFile s p b m = Except.ok s') :
    s'.tombstones = s.tombstones := by
  obtain ⟨fp, _, _, hs'⟩ := WriteFile_ok_elim h
  subst hs'
  rfl

theorem handleConflict_tombstones (st : SyncState) (dev : String) (cv : FileChangePayload)
    (sh : String) :
    (SyncManager.handleConflict st dev cv sh).1.storage.tombstones = st.storage.tombstones := by
  unfold SyncManager.handleConflict
  repeat' split
  all_goals (try (dsimp only; repeat' split))
  all_goals first | rfl | (exact WriteFile_tombstones (by assumption))

theorem handleFileChange_tombstones (st : SyncState) (dev : String) (msg : SyncMessage) :
    (SyncManager.handleFileChange st dev msg).1.storage.tombstones = st.storage.tombstones := by
  unfold SyncManager.handleFileChange
  repeat' split
  all_goals (try (dsimp only; repeat' split))
  all_goals first
    | rfl
    | (exact WriteFile_tombstones (by assumption))
    | apply handleConflict_tombstones

def tombC2 : Tombstone := ⟨"a.md", 900, "d1", [("d1", 5)], 3492900⟩

def svStC2 : SyncState :=
  ⟨⟨"/vault", 50, [], [], [("a.md", tombC2)], 1000⟩, "last_write_wins", [("d1", 5)]⟩

def changeMsgC2 : SyncMessage :=
  ⟨"file_change", "d2", 0, some [("d2", 3)], .fileChange ⟨"a.md", "aA==", 7, "h", ""⟩⟩

set_option maxRecDepth 100000 in
/-- Claim C2 (code bug): the file_change path never removes
tombstones - the registry is untouched by handleFileChange in every
case - and at the failing input a write for a tombstoned path is
accepted, broadcast, and leaves the tombstone registered, so the path
has a tombstone after a successful write. -/
theorem C2_write_keeps_tombstone :
    (∀ (st : SyncState) (dev : String) (msg : SyncMessage),
      (SyncManager.handleFileChange st dev msg).1.storage.tombstones = st.storage.tombstones) ∧
    Storage.ReadFile (SyncManager.HandleMessage svStC2 "d2" changeMsgC2).1.storage "a.md" =
      Except.ok [104] ∧
    Storage.GetTombstone (SyncManager.HandleMessage svStC2 "d2" changeMsgC2).1.storage "a.md" =
      some tombC2 ∧
    (SyncManager.HandleMessage svStC2 "d2" changeMsgC2).2 =
      [Effect.broadcast "d2" ⟨"file_changed", "d2", .fileChange ⟨"a.md", "aA==", 7, "h", ""⟩⟩] :=
  ⟨fun st dev msg => handleFileChange_tombstones st dev msg, by decide, by decide, by decide⟩

def changeMsgC3 : SyncMessage :=
  ⟨"file_change", "d2", 0, some [("d1", 1)], .fileChange ⟨"a.md", "aA==", 7, "h", ""⟩⟩

set_option maxRecDepth 100000 in
/-- Claim C3 (code bug): at the failing input the tombstone's vector
clock strictly dominates (is after) the incoming message's clock, yet
the server accepts the write (the new content is readable afterwards)
and the only transport effect is the ordinary file_changed broadcast:
no file_deleted frame is sent back to the originator and the write is
not rejected. -/
theorem C3_no_resurrection_suppression :
    compareVectorClocks (some tombC2.vectorClock) changeMsgC3.vectorClock = "after" ∧
    Storage.ReadFile (SyncManager.HandleMessage svStC2 "d2" changeMsgC3).1.storage "a.md" =
      Except.ok [104] ∧
    (SyncManager.HandleMessage svStC2 "d2" changeMsgC3).2 =
      [Effect.broadcast "d2" ⟨"file_changed", "d2", .fileChange ⟨"a.md", "aA==", 7, "h", ""⟩⟩] :=
  ⟨by decide, by decide, by decide⟩

/-! ## C6: last-write-wins conflict resolution -/

theorem WriteFile_ok_intro {s : StorageState} {p : String} {b : List Nat} {m : Int}
    {fp : String} (hv : Storage.validatePath s p = Except.ok fp)
    (hsz : ¬ ((b.length : Int) > s.maxFileSizeMB * 1024 * 1024)) :
    Storage.WriteFile s p b m = Except.ok
      { s with disk := setA s.disk fp ⟨b, if m > 0 then m else s.now * 1000⟩,
               hashes := setA s.hashes p (sha256hex b) } := by
  unfold Storage.WriteFile
  rw [hv]
  dsimp only
  rw [if_neg hsz]

/-- Claim C6: under the last_write_wins policy, an inbound file_change
whose previous_hash is present and differs from the current non-empty
server hash is a conflict; a strictly newer incoming mtime overwrites
the file and broadcasts file_changed to the other devices, while an
equal or older incoming mtime mutates nothing and sends the server's
current version back to the originator only, as a file_changed frame
with origin_device server and no broadcast. -/
theorem C6_last_write_wins (st : SyncState) (dev : String) (msg : SyncMessage)
    (payload : FileChangePayload) (content : List Nat) (info : FileInfo)
    (hpol : st.conflictResolution = "last_write_wins")
    (hpay : msg.payload = SyncPayload.fileChange payload)
    (hdec : base64Decode payload.content = some content)
    (hhash : Storage.GetFileHash st.storage payload.path ≠ "")
    (hprev : payload.previousHash ≠ "")
    (hconf : Storage.GetFileHash st.storage payload.path ≠ payload.previousHash)
    (hinfo : Storage.GetFileInfo st.storage payload.path = Except.ok info)
    (hsize : ¬ ((content.length : Int) > st.storage.maxFileSizeMB * 1024 * 1024)) :
    (payload.mtime ≤ info.mtime →
      ∃ serverContent,
        Storage.ReadFile st.storage payload.path = Except.ok serverContent ∧
        SyncManager.handleFileChange st dev msg =
          (st, [Effect.sendTo dev ⟨"file_changed", "server",
            ServerPayload.fileChange ⟨payload.path, base64Encode serverContent, info.mtime,
              Storage.GetFileHash st.storage payload.path, ""⟩⟩])) ∧
    (info.mtime < payload.mtime →
      ∃ storage',
        Storage.WriteFile st.storage payload.path content payload.mtime = Except.ok storage' ∧
        SyncManager.handleFileChange st dev msg =
          ({ st with storage := storage' },
           [Effect.broadcast dev ⟨"file_changed", dev, ServerPayload.fileChange payload⟩]) ∧
        Storage.ReadFile storage' payload.path = Except.ok content) := by
  obtain ⟨fp, df, hv, hd, hinfoeq⟩ := GetFileInfo_ok_elim hinfo
  have hread : Storage.ReadFile st.storage payload.path = Except.ok df.content :=
    ReadFile_of_disk hv hd
  have hextract : SyncManager.extractFileChangePayload msg.payload = some payload := by
    rw [hpay]; rfl
  have hcond : Storage.GetFileHash st.storage payload.path ≠ "" ∧
      payload.previousHash ≠ "" ∧
      Storage.GetFileHash st.storage payload.path ≠ payload.previousHash :=
    ⟨hhash, hprev, hconf⟩
  have hmain : SyncManager.handleFileChange st dev msg =
      SyncManager.handleConflict st dev payload (Storage.GetFileHash st.storage payload.path) := by
    simp only [SyncManager.handleFileChange, hextract, hdec]
    rw [if_pos hcond]
  constructor
  · intro hmt
    refine ⟨df.content, hread, ?_⟩
    rw [hmain]
    unfold SyncManager.handleConflict
    rw [if_pos hpol]
    simp only [hinfo]
    rw [if_pos (by rw [hinfoeq] at hmt ⊢; exact hmt)]
    simp only [hread, hinfoeq]
  · intro hmt
    have hlt : ¬ (payload.mtime ≤ info.mtime) := not_le.mpr hmt
    have hwrite := WriteFile_ok_intro (b := content) (m := payload.mtime) hv hsize
    refine ⟨_, hwrite, ?_, ?_⟩
    · rw [hmain]
      unfold SyncManager.handleConflict
      rw [if_pos hpol]
      simp only [hinfo]
      rw [if_neg (by rw [hinfoeq] at hlt ⊢; exact hlt)]
      simp only [hdec, Option.getD_some, hwrite]
    · have hv' : Storage.validatePath
          { st.storage with
              disk := setA st.storage.disk fp
                ⟨content, if payload.mtime > 0 then payload.mtime else st.storage.now * 1000⟩,
              hashes := setA st.storage.hashes payload.path (sha256hex content) }
          payload.path = Except.ok fp :=
        (validatePath_congr st.storage _ payload.path rfl).trans hv
      simp [Storage.ReadFile, hv', lookupA_setA_self]

def stC6 : SyncState :=
  ⟨⟨"/v", 50, [("/v/x.md", ⟨[97], 2000⟩)], [("x.md", sha256hex [97])], [], 1000⟩,
   "last_write_wins", []⟩

def payloadC6 : FileChangePayload := ⟨"x.md", "aA==", 1500, "h", "deadbeef"⟩

def msgC6 : SyncMessage := ⟨"file_change", "d1", 0, none, .fileChange payloadC6⟩

set_option maxRecDepth 1000000 in
/-- Witness for C6 at a concrete conflict where the incoming mtime
1500 loses against the server file's mtime 2000. -/
theorem C6_witness :
    ∃ serverContent,
      Storage.ReadFile stC6.storage "x.md" = Except.ok serverContent ∧
      SyncManager.handleFileChange stC6 "d1" msgC6 =
        (stC6, [Effect.sendTo "d1" ⟨"file_changed", "server",
          ServerPayload.fileChange ⟨"x.md", base64Encode serverContent, 2000,
            Storage.GetFileHash stC6.storage "x.md", ""⟩⟩]) :=
  (C6_last_write_wins stC6 "d1" msgC6 payloadC6 [104] ⟨"x.md", sha256hex [97], 1, 2000⟩
    rfl rfl (by decide) (by decide) (by decide) (by decide) (by decide) (by decide)).1
    (by decide)

/-! ## C1: full-sync never deletes a local file without a tombstone -/

theorem sendFileChange_files (st : ClientState) (f : LocalFile) :
    (Client.sendFileChange st f).1.files = st.files := rfl

theorem sendFileDelete_files (st : ClientState) (p : String) :
    (Client.sendFileDelete st p).1.files = st.files := rfl

theorem requestFile_files (st : ClientState) (p : String) :
    (Client.requestFile st p).1.files = st.files := rfl

theorem hashPassStep_files (acc : ClientState × List (String × LocalFile)) (f : LocalFile) :
    (Client.hashPassStep acc f).1.files = acc.1.files := by
  unfold Client.hashPassStep
  repeat' split
  all_goals rfl

theorem hashPass_files (st : ClientState) (lf : List LocalFile) :
    (Client.hashPass st lf).1.files = st.files := by
  unfold Client.hashPass
  suffices hgen : ∀ acc : ClientState × List (String × LocalFile),
      (lf.foldl Client.hashPassStep acc).1.files = acc.1.files from hgen (st, [])
  induction lf with
  | nil => intro acc; rfl
  | cons f rest ih =>
    intro acc
    rw [List.foldl_cons, ih, hashPassStep_files]

theorem serverPassStep_files (lfm lhf : List (String × LocalFile))
    (acc : ClientState × List ClientAction) (e : String × FileInfo) :
    (Client.serverPassStep lfm lhf acc e).1.files = acc.1.files := by
  unfold Client.serverPassStep
  repeat' split
  all_goals (try (dsimp only; repeat' split))
  all_goals first
    | rfl
    | exact sendFileChange_files _ _
    | exact sendFileDelete_files _ _
    | exact requestFile_files _ _

theorem serverPass_files (lfm lhf : List (String × LocalFile))
    (l : List (String × FileInfo)) (acc : ClientState × List ClientAction) :
    (l.foldl (Client.serverPassStep lfm lhf) acc).1.files = acc.1.files := by
  induction l generalizing acc with
  | nil => rfl
  | cons e rest ih =>
    rw [List.foldl_cons, ih, serverPassStep_files]

theorem localPassStep_files (tm : List (String × Tombstone)) (shp : List (String × String))
    (lfm : List (String × LocalFile)) (acc : ClientState × List ClientAction)
    (file : LocalFile) :
    (Client.localPassStep tm shp lfm acc file).1.files = acc.1.files ∨
    (∃ t, lookupA tm file.path = some t ∧
      (Client.localPassStep tm shp lfm acc file).1.files =
        acc.1.files.filter (fun g => decide (g.path ≠ file.path))) := by
  unfold Client.localPassStep
  cases hts : lookupA tm file.path with
  | some t =>
    right
    refine ⟨t, rfl, ?_⟩
    simp only [hts]
  | none =>
    left
    simp only [hts]
    repeat' split
    all_goals (try (dsimp only; repeat' split))
    all_goals first
      | rfl
      | exact sendFileChange_files _ _

theorem localPass_keeps (tm : List (String × Tombstone)) (shp : List (String × String))
    (lfm : List (String × LocalFile)) (l : List LocalFile)
    (acc : ClientState × List ClientAction) (p : String)
    (htm : lookupA tm p = none)
    (hin : ∃ f ∈ acc.1.files, f.path = p) :
    ∃ f ∈ (l.foldl (Client.localPassStep tm shp lfm) acc).1.files, f.path = p := by
  induction l generalizing acc with
  | nil => exact hin
  | cons file rest ih =>
    rw [List.foldl_cons]
    apply ih
    rcases localPassStep_files tm shp lfm acc file with hsame | ⟨t, hts, hfilter⟩
    · rw [hsame]; exact hin
    · rw [hfilter]
      obtain ⟨f, hf, hfp⟩ := hin
      have hne : file.path ≠ p := fun he => by
        rw [he, htm] at hts; exact Option.noConfusion hts
      exact ⟨f, List.mem_filter.mpr
        ⟨hf, by rw [hfp]; exact decide_eq_true (fun h => hne h.symm)⟩, hfp⟩

theorem tombMap_none (l : List Tombstone) :
    ∀ (init : List (String × Tombstone)) (p : String),
    (∀ t ∈ l, t.path ≠ p) → lookupA init p = none →
    lookupA (l.foldl (fun m t => setA m t.path t) init) p = none := by
  induction l with
  | nil => intro init p _ h0; exact h0
  | cons t rest ih =>
    intro init p h h0
    rw [List.foldl_cons]
    refine ih (setA init t.path t) p
      (fun t' ht' => h t' (List.mem_cons_of_mem _ ht')) ?_
    rw [lookupA_setA_ne init t.path p t
      (fun he => h t (List.mem_cons_self _ _) he.symm)]
    exact h0

/-- Claim C1: full-sync reconciliation deletes a local file at path p
only when the payload's tombstones cover p: for any client state and
any full_sync payload whose tombstones do not cover p, a local file at
p still exists after reconciliation. -/
theorem C1_fullSync_no_delete_without_tombstone
    (st : ClientState) (payload : FullSyncPayload) (p : String)
    (htomb : ∀ t ∈ payload.tombstones, t.path ≠ p)
    (hin : ∃ f ∈ st.files, f.path = p) :
    ∃ f ∈ (Client.handleFullSync st payload).1.files, f.path = p := by
  unfold Client.handleFullSync
  dsimp only
  apply localPass_keeps
  · exact tombMap_none payload.tombstones [] p htomb rfl
  · rw [serverPass_files, hashPass_files]
    cases payload.vectorClock with
    | none => exact hin
    | some c => exact hin

def stC1 : ClientState := ⟨"d2", [⟨"a.md", 5, [104]⟩], [], []⟩

def payloadC1 : FullSyncPayload :=
  ⟨[], [⟨"b.md", 900, "d1", [("d1", 2)], 3492900⟩], some [("server", 1)]⟩

/-- Witness for C1: a vault with one file a.md reconciled against a
payload whose only tombstone names a different path b.md. -/
theorem C1_witness :
    ∃ f ∈ (Client.handleFullSync stC1 payloadC1).1.files, f.path = "a.md" :=
  C1_fullSync_no_delete_without_tombstone stC1 payloadC1 "a.md" (by decide) (by decide)
